import Mathlib

/-!
Verification of the generator core of `dev-gpt`
(`src/options/generate/generator.py`).

Texts are modelled as `List Char` (`Str`). The two regular expressions of
`extract_content_from_result` are given an explicit operational semantics
(leftmost match, greedy optional language-tag group with backtracking,
non-greedy content group). External collaborators that live outside the
provided sources (the GPT conversation backend from `src/apis/gpt.py`, the
remote builder from `src/apis/jina_cloud.py`, prompt templates from
`templates_user.py`, file persistence from `src/utils/io.py`) are modelled
as oracle functions or as recorded effects, following section 6 of the
specification ("External interfaces").
-/

/-- Texts (Python `str`) are lists of characters. -/
abbrev Str := List Char

/-- Convert a Lean string literal into the `Str` model. -/
def str (s : String) : Str := s.toList

/-- The backtick character (written numerically). -/
def btChar : Char := Char.ofNat 96

/-- Three backticks: the code-fence delimiter of both regex patterns. -/
def bt3 : Str := [btChar, btChar, btChar]

/-- Newline followed by three backticks: the closing delimiter of the
labeled-block pattern (the source comment on line 41 notes that the `\n`
makes sure that a ``` inside the generated code is not matched). -/
def nlMark : Str := '\n' :: bt3

/-- Python regex `\w` on the characters that actually occur here:
letters, digits and underscore. -/
def isWordChar (c : Char) : Bool := c.isAlphanum || c == '_'

/-- Python `str.strip()` whitespace: space, tab, newline, carriage return,
vertical tab and form feed. -/
def pySpace (c : Char) : Bool :=
  c == ' ' || c == '\t' || c == '\n' || c == '\r' ||
  c == Char.ofNat 11 || c == Char.ofNat 12

/-- Python `str.strip()`: drop whitespace from both ends. -/
def trim (s : Str) : Str :=
  ((s.dropWhile pySpace).reverse.dropWhile pySpace).reverse

/-- Does `pat` occur at the very start of `s`? -/
def startsWith : Str → Str → Bool
  | [], _ => true
  | _ :: _, [] => false
  | p :: ps, c :: cs => p == c && startsWith ps cs

/-- Strip the literal pattern `p` from the front of `s`, or fail. -/
def stripLit : Str → Str → Option Str
  | [], s => some s
  | _ :: _, [] => none
  | p :: ps, c :: cs => if p == c then stripLit ps cs else none

/-- One pattern character of the interpolated `file_name`.  The file name is
spliced into the regex unescaped (`fr"^\*\*{file_name}\*\*..."`), so a `.`
in it is the regex wildcard (any character except newline); the file names
used by the generator consist of word characters, `.` and `-`, and the
latter two are the only non-literal ones (`-` is literal outside a class). -/
def patCharMatches (p c : Char) : Bool :=
  if p == '.' then !(c == '\n') else p == c

/-- Strip text matching the interpolated file-name pattern from the front
of `s`, or fail. -/
def stripName : Str → Str → Option Str
  | [], s => some s
  | _ :: _, [] => none
  | p :: ps, c :: cs => if patCharMatches p c then stripName ps cs else none

/-- Drop the maximal run of word characters from the front of `s`. -/
def afterWordRun : Str → Str
  | [] => []
  | c :: cs => if isWordChar c then afterWordRun cs else c :: cs

/-- The optional language-tag group `(?:\w+\n)?`: if `s` starts with one or
more word characters followed directly by a newline, consume them and
return the remainder; otherwise fail.  The word run is maximal, which is
also the unique way `\w+\n` can match. -/
def tagSplit : Str → Option Str
  | [] => none
  | c :: cs =>
    if isWordChar c then
      match afterWordRun cs with
      | '\n' :: rest => some rest
      | _ => none
    else none

/-- Split `s` at the first occurrence of `pat`: returns the text before the
occurrence and the text after it.  This is the non-greedy group
`([\s\S]*?)` followed by the literal delimiter `pat`. -/
def splitAtPat (pat : Str) : Str → Option (Str × Str)
  | [] => if startsWith pat [] then some ([], []) else none
  | c :: cs =>
    if startsWith pat (c :: cs) then some ([], (c :: cs).drop pat.length)
    else
      match splitAtPat pat cs with
      | some pr => some (c :: pr.1, pr.2)
      | none => none

/-- Does `pat` occur anywhere in `s`? -/
def containsPat (pat : Str) : Str → Bool
  | [] => startsWith pat []
  | c :: cs => startsWith pat (c :: cs) || containsPat pat cs

/-- Match `(?:\w+\n)?([\s\S]*?)close` against `s`.  The regex engine first
tries the greedy optional tag group, then the shortest content closed by
`close`; if no closing delimiter is found on that branch it backtracks and
retries with the tag group empty.  Returns the content group and the text
after the closing delimiter. -/
def fenceContent (close : Str) (s : Str) : Option (Str × Str) :=
  match tagSplit s with
  | some rest =>
    match splitAtPat close rest with
    | some pr => some pr
    | none => splitAtPat close s
  | none => splitAtPat close s

/-- Try the labeled-block pattern
`\*\*file_name\*\*\n```(?:\w+\n)?([\s\S]*?)\n``` ` at the current position:
literal `**`, the file name, literal `**` + newline + opening fence, then
the fence body.  Returns the content group and the remainder after the
match. -/
def matchLabelAt (name s : Str) : Option (Str × Str) :=
  match stripLit ['*', '*'] s with
  | none => none
  | some s1 =>
    match stripName name s1 with
    | none => none
    | some s2 =>
      match stripLit ('*' :: '*' :: '\n' :: bt3) s2 with
      | none => none
      | some s3 => fenceContent nlMark s3

/-- `re.search` with `re.MULTILINE` for the labeled-block pattern: scan the
positions left to right, attempting the pattern only where `^` holds
(position 0 or just after a newline), and return the first content group
found. -/
def searchLabeled (name : Str) (flag : Bool) : Str → Option Str
  | [] => none
  | c :: cs =>
    match (if flag then matchLabelAt name (c :: cs) else none) with
    | some cr => some cr.1
    | none => searchLabeled name (c == '\n') cs

/-- Try the single-block pattern `^```(?:\w+\n)?([\s\S]*?)``` ` at the
current position (note: no newline before the closing fence here). -/
def matchSingleAt (s : Str) : Option (Str × Str) :=
  match stripLit bt3 s with
  | none => none
  | some s1 => fenceContent bt3 s1

/-- `re.findall` for the single-block pattern: scan left to right, matching
only at line starts, collecting content groups of non-overlapping matches
and resuming after each match.  The fuel argument only serves termination;
it is decremented at every step and `findAllFrom` supplies enough of it. -/
def findAllAux : Nat → Bool → Str → List Str
  | 0, _, _ => []
  | _ + 1, _, [] => []
  | fuel + 1, flag, c :: cs =>
    match (if flag then matchSingleAt (c :: cs) else none) with
    | some cr => cr.1 :: findAllAux fuel false cr.2
    | none => findAllAux fuel (c == '\n') cs

/-- All single-block matches of `s`, starting with line-start flag `flag`. -/
def findAllFrom (flag : Bool) (s : Str) : List Str :=
  findAllAux (s.length + 1) flag s

/-- `Generator.extract_content_from_result` (generator.py lines 39-51):
search for the labeled block and return its trimmed content group; when
there is none and `match_single_block` is set, return the trimmed content
of the unique single-block match if there is exactly one; otherwise
return the empty text. -/
def extract_content_from_result (plain_text name : Str)
    (match_single_block : Bool) : Str :=
  match searchLabeled name true plain_text with
  | some content => trim content
  | none =>
    if match_single_block then
      match findAllFrom true plain_text with
      | [c] => trim c
      | _ => []
    else []

/-! ## File maps and repository constants -/

/-- A candidate version's files: an association list from file name to
content, modelling the Python dict `file_name_to_content` (insertion
ordered, no duplicate keys in use). -/
abbrev FileMap := List (Str × Str)

/-- Dict lookup: value of the first entry with key `k`. -/
def lookupMap : FileMap → Str → Option Str
  | [], _ => none
  | (k', v) :: rest, k => if k' == k then some v else lookupMap rest k

/-- Dict assignment `m[k] = v`: replace the first entry with key `k`, or
append a new entry. -/
def updateMap : FileMap → Str → Str → FileMap
  | [], k, v => [(k, v)]
  | (k', v') :: rest, k, v =>
    if k' == k then (k, v) :: rest else (k', v') :: updateMap rest k v

/-- Modelled from the spec: `FILE_AND_TAG_PAIRS` comes from
`src/constants.py`, which is not under the provided sources.  The spec
fixes the artifact set as source module, test module, dependency manifest
and build file (sections 3 and 6); the tag components are only used when
rendering files into prompts and are irrelevant to every claim. -/
def FILE_AND_TAG_PAIRS : List (Str × Str) :=
  [(str "microservice.py", str "python"),
   (str "test_microservice.py", str "python"),
   (str "requirements.txt", []),
   (str "Dockerfile", str "dockerfile")]

/-- The recognized file kinds: the names of `FILE_AND_TAG_PAIRS`. -/
def recognizedFiles : List Str := FILE_AND_TAG_PAIRS.map Prod.fst

/-- `Generator.files_to_string` (lines 63-68): render the files that are
present, in the fixed `FILE_AND_TAG_PAIRS` order, as labeled blocks, and
strip the result.  (The `restrict_keys` parameter is unused by the code
paths the claims cover; callers pre-filter the map instead.) -/
def files_to_string (m : FileMap) : Str :=
  trim (FILE_AND_TAG_PAIRS.foldl
    (fun acc p =>
      match lookupMap m p.1 with
      | some content =>
        acc ++ str "**" ++ p.1 ++ str "**\n" ++ bt3 ++ p.2 ++ str "\n" ++
          content ++ str "\n" ++ bt3 ++ str "\n\n"
      | none => acc)
    [])

/-- Keep only the entries whose key is listed (the dict comprehension in
the dependency branch of `do_debug_iteration`). -/
def restrictMap (m : FileMap) (keys : List Str) : FileMap :=
  m.filter (fun p => keys.contains p.1)

/-! ## Dependency-vs-code classifier -/

/-- Modelled from the spec: the prompt template
`template_is_dependency_issue` lives in `templates_user.py`, which is not
under the provided sources.  The spec (section 4.6) says the model is asked
whether this is a dependency issue given the build file; the exact wording
is irrelevant to the claims, only that exactly one such query is sent. -/
def template_is_dependency_issue (error docker_file : Str) : Str :=
  str "Is this a dependency issue, given the build file? " ++ error ++
  str " " ++ docker_file

/-- The fixed fast-path exception names of `is_dependency_issue`
(line 282). -/
def heuristicMarkers : List Str :=
  [str "AttributeError", str "NameError", str "AssertionError"]

/-- `Generator.is_dependency_issue` (lines 280-288).  `oracle` is the GPT
conversation backend (a fresh conversation per call); the second component
of the result is the transcript of user messages sent to it.  If any fixed
exception name occurs in the raw error text, classify as a code issue
(`false`) with no model call; otherwise send the classifier prompt once and
answer `true` exactly when `yes` occurs in the lowercased reply. -/
def is_dependency_issue (oracle : Str → Str) (error docker_file : Str) :
    Bool × List Str :=
  if heuristicMarkers.any (fun m => containsPat m error) then (false, [])
  else
    let query := template_is_dependency_issue error docker_file
    let answer := oracle query
    (containsPat (str "yes") (answer.map Char.toLower), [query])

/-! ## The debug loop -/

/-- The external collaborators of one debugging approach, modelled as
oracles per section 6 of the spec: `pushLog i` is the hubble log returned
by `push_executor` on version `i`'s directory, `processError` is
`process_error_message` (empty text means no error), `inHub i` is
`is_executor_in_hub` as observed on iteration `i`, `summarize` is the
round trip of `summarize_error`, `depOracle` answers the classifier
conversation, `solveOracle` answers the repair conversation, and
`mkDepQuery`/`mkCodeQuery` stand for the prompt templates
`template_solve_dependency_issue`/`template_solve_code_issue` (not under
the provided sources). -/
structure DebugEnv where
  pushLog : Nat → Str
  processError : Str → Str
  inHub : Nat → Bool
  summarize : Str → Str
  depOracle : Str → Str
  solveOracle : Str → Str
  mkDepQuery : Str → Str → Str
  mkCodeQuery : Str → Str → Str

/-- The classification computed inside `do_debug_iteration` (line 253):
`is_dependency_issue` applied to the error and the predecessor's
Dockerfile.  (Python indexes the dict directly and would raise `KeyError`
on a version without a Dockerfile; the `getD` default only feeds the
classifier's prompt.) -/
def debugIsDep (env : DebugEnv) (error : Str) (prev : FileMap) : Bool :=
  (is_dependency_issue env.depOracle error
    ((lookupMap prev (str "Dockerfile")).getD [])).1

/-- The model reply `returned_files_raw` of `do_debug_iteration`
(lines 254-268): the repair conversation is sent the dependency prompt
(restricted to requirements.txt and Dockerfile) or the code prompt (all
files), and returns its answer. -/
def debugRaw (env : DebugEnv) (error : Str) (prev : FileMap) : Str :=
  let summarized := env.summarize error
  let user_query :=
    if debugIsDep env error prev then
      env.mkDepQuery summarized
        (files_to_string
          (restrictMap prev [str "requirements.txt", str "Dockerfile"]))
    else
      env.mkCodeQuery summarized (files_to_string prev)
  env.solveOracle user_query

/-- `Generator.do_debug_iteration` (lines 248-275): starting from the
predecessor's complete file map, extract each recognized file kind from
the model reply and, when non-empty (and, for a dependency issue, only for
requirements.txt and Dockerfile), overwrite that entry; the resulting map
is what the final loop persists file by file into the successor version's
fresh directory.  The predecessor map is a value and is never mutated. -/
def do_debug_iteration (env : DebugEnv) (error : Str) (prev : FileMap) :
    FileMap :=
  let isDep := debugIsDep env error prev
  let raw := debugRaw env error prev
  FILE_AND_TAG_PAIRS.foldl
    (fun acc p =>
      let updated := extract_content_from_result raw p.1 false
      if updated ≠ [] &&
          (!isDep || (p.1 == str "requirements.txt" ||
                      p.1 == str "Dockerfile")) then
        updateMap acc p.1 updated
      else acc)
    prev

/-- The possible outcomes of `debug_microservice`.  Each constructor
carries the list of loop indices `i` at which a repair
(`do_debug_iteration`, creating version `i + 1`) was performed:
`success i r` models breaking out of the loop and returning
`get_microservice_path(..., i)`; `maxDebugTimeReached` models raising
`MaxDebugTimeReachedException`; `notInHub i r` models the uncaught
`Exception` raised when no error was extracted but the executor is not in
the hub; `noIterations` models `range(1, MAX)` being empty (`MAX ≤ 1`), in
which case CPython raises `NameError` at the final path lookup. -/
inductive DebugOutcome where
  | success (i : Nat) (repairs : List Nat)
  | maxDebugTimeReached (repairs : List Nat)
  | notInHub (i : Nat) (repairs : List Nat)
  | noIterations (repairs : List Nat)
  deriving DecidableEq, Repr

/-- The repair-iteration trace of an outcome. -/
def repairsOf : DebugOutcome → List Nat
  | .success _ r => r
  | .maxDebugTimeReached r => r
  | .notInHub _ r => r
  | .noIterations r => r

/-- The body of `debug_microservice`'s `for i in range(1, MAX)` loop
(lines 224-243), with `fuel` the number of indices left in the range (so
`fuel = 0` exactly when `i` has passed `MAX - 1`, and the inner `fuel = 0`
test is `i == MAX_DEBUGGING_ITERATIONS - 1`).  Push version `i`; if an
error is extracted, repair (recording `i`) and either raise the bounded
retry-exhausted signal on the last allowed index or continue with `i + 1`;
if no error is extracted, succeed when the executor is in the hub and
raise otherwise. -/
def debugAux (env : DebugEnv) : Nat → Nat → List Nat → DebugOutcome
  | 0, _, acc => .noIterations acc
  | fuel + 1, i, acc =>
    let error := env.processError (env.pushLog i)
    if error ≠ [] then
      let acc' := acc ++ [i]
      if fuel = 0 then .maxDebugTimeReached acc'
      else debugAux env fuel (i + 1) acc'
    else if env.inHub i then .success i acc
    else .notInHub i acc

/-- `Generator.debug_microservice` (lines 223-246): run the loop for
`i = 1 .. MAX - 1`. -/
def debug_microservice (env : DebugEnv) (MAX : Nat) : DebugOutcome :=
  debugAux env (MAX - 1) 1 []

/-! ## Approach selector -/

/-- How one approach's `try` block ends inside `generate` (lines 323-336):
it completed end to end, it raised `MaxDebugTimeReachedException` (the only
exception the `except` clause catches), or it raised some other exception
(the not-in-hub `Exception` from the debug loop or from
`generate_playground`), which propagates out of the selector. -/
inductive ApproachStatus where
  | completed
  | maxDebugExhausted
  | otherError
  deriving DecidableEq, Repr

/-- One approach's pipeline, composed from the debug loop: repair
exhaustion maps to the caught signal, a hub-absence exception or a
`NameError` propagates, and success continues into
`generate_playground`, whose own hub check may still raise
(`playgroundOk`). -/
def try_approach (env : DebugEnv) (MAX : Nat) (playgroundOk : Bool) :
    ApproachStatus :=
  match debug_microservice env MAX with
  | .maxDebugTimeReached _ => .maxDebugExhausted
  | .success _ _ => if playgroundOk then .completed else .otherError
  | .notInHub _ _ => .otherError
  | .noIterations _ => .otherError

/-- How the whole `generate` run ends: success with the index of the first
approach that completed, normal termination with no working microservice
after every approach exhausted its retries, or an uncaught exception at
approach `k`. -/
inductive RunResult where
  | succeeded (k : Nat)
  | allApproachesFailed
  | uncaught (k : Nat)
  deriving DecidableEq, Repr

/-- The `for num_approach, packages in enumerate(packages_list)` loop of
`generate` (lines 323-343): on `completed`, print the run/deploy
instructions and `break`; on the caught `MaxDebugTimeReachedException`,
log and `continue` with the next approach; any other exception escapes. -/
def generateAux (step : Nat → ApproachStatus) : Nat → Nat → RunResult
  | 0, _ => .allApproachesFailed
  | r + 1, k =>
    match step k with
    | .completed => .succeeded k
    | .maxDebugExhausted => generateAux step r (k + 1)
    | .otherError => .uncaught k

/-- `Generator.generate`'s approach-selection loop over `n` approaches,
where approach `k` runs with collaborators `envs k` and playground
outcome `playOk k`. -/
def generate_run (envs : Nat → DebugEnv) (playOk : Nat → Bool)
    (MAX n : Nat) : RunResult :=
  generateAux (fun k => try_approach (envs k) MAX (playOk k)) n 0

/-! ## File generation with one corrective retry -/

/-- The observable result of `generate_and_persist_file`: the returned
content, the user messages sent on its conversation, and the files
persisted (destination folder, file name, content) via `persist_file`
(from `src/utils/io.py`, not under the provided sources; modelled as a
recorded write of exactly its arguments). -/
structure GenFileResult where
  content : Str
  sent : List Str
  written : List (Str × Str × Str)
  deriving DecidableEq, Repr

/-- `Generator.generate_and_persist_file` (lines 71-103).  `oracle k` is
the model's reply to the `k`-th chat message of this conversation, and
`prompt` is the formatted template message.  Extract the labeled block
(with single-block fallback); when that is empty, send exactly one
corrective follow-up and extract from the second reply; then, if a
destination folder is given, persist the (possibly empty) content under
`file_name` there, and return it. -/
def generate_and_persist_file (oracle : Nat → Str) (prompt : Str)
    (destination_folder : Option Str) (file_name : Str) : GenFileResult :=
  let content1 := extract_content_from_result (oracle 0) file_name true
  let result :=
    if content1 = [] then
      let followup := str "You must add the content for " ++ file_name ++
        str "."
      (extract_content_from_result (oracle 1) file_name true,
       [prompt, followup])
    else (content1, [prompt])
  { content := result.1
    sent := result.2
    written :=
      match destination_folder with
      | some d => [(d, file_name, result.1)]
      | none => [] }

/-! ## Specification refinement loop -/

/-- `Generator.refine_task`'s `while True` loop (lines 372-386).
`respOf n d` is the model's reply at iteration `n` to the current draft
`d`; `input q` is the non-empty reply `get_user_input` obtains from the
human when shown `q`.  A finalized block (`task-final.txt`) is stored and
ends the loop (`some`), a question block (`prompt.txt`) is surfaced to
the human, and an unrecognized reply is surfaced whole (with the `\n: `
prompt suffix) as the next question.  The fuel argument truncates the
otherwise unbounded loop (`none` = still running), which the spec flags
as having no iteration cap. -/
def refine_task_loop (respOf : Nat → Str → Str) (input : Str → Str) :
    Nat → Nat → Str → Option Str
  | 0, _, _ => none
  | fuel + 1, n, task_description =>
    let resp := respOf n task_description
    let question := extract_content_from_result resp (str "prompt.txt") false
    let task_final :=
      extract_content_from_result resp (str "task-final.txt") false
    if task_final ≠ [] then some task_final
    else if question ≠ [] then
      refine_task_loop respOf input fuel (n + 1) (input question)
    else
      refine_task_loop respOf input fuel (n + 1)
        (input (resp ++ str "\n: "))

/-- The line-start flag after scanning over `pre`, starting from `flag`:
true exactly when the next position is position 0 (`pre = []` and `flag`)
or just after a newline. -/
def endFlag (flag : Bool) : Str → Bool
  | [] => flag
  | c :: cs => endFlag (c == '\n') cs

/-- Does `s` begin with a language-tag line, i.e. one or more word
characters followed by a newline within `s`?  When the text continuing a
fence body does not, the optional tag group of the patterns fails on it. -/
def startsTagLine (s : Str) : Bool :=
  match s with
  | [] => false
  | c :: cs =>
    isWordChar c &&
      (match afterWordRun cs with
       | '\n' :: _ => true
       | _ => false)

/-! ## Basic lemmas about the pattern primitives -/

theorem stripLit_self : ∀ (p r : Str), stripLit p (p ++ r) = some r
  | [], _ => rfl
  | c :: cs, r => by simp [stripLit, stripLit_self cs r]

theorem patCharMatches_refl (c : Char) : patCharMatches c c = true := by
  by_cases h : c == '.'
  · have hc : c = '.' := by simpa using h
    subst hc; decide
  · simp [patCharMatches, h]

theorem stripName_self : ∀ (p r : Str), stripName p (p ++ r) = some r
  | [], _ => rfl
  | c :: cs, r => by
    simp [stripName, patCharMatches_refl, stripName_self cs r]

theorem startsWith_self : ∀ (p r : Str), startsWith p (p ++ r) = true
  | [], _ => rfl
  | c :: cs, r => by simp [startsWith, startsWith_self cs r]

theorem startsWith_length : ∀ (p s : Str), startsWith p s = true →
    p.length ≤ s.length
  | [], _, _ => Nat.zero_le _
  | _ :: _, [], h => by simp [startsWith] at h
  | p :: ps, c :: cs, h => by
    simp only [startsWith, Bool.and_eq_true] at h
    have := startsWith_length ps cs h.2
    simpa [Nat.succ_le_succ_iff] using this

theorem startsWith_agree : ∀ (p s1 s2 : Str),
    s1.take p.length = s2.take p.length → startsWith p s1 = startsWith p s2
  | [], _, _, _ => rfl
  | p :: ps, [], [], _ => rfl
  | p :: ps, [], c :: cs, h => by simp at h
  | p :: ps, c :: cs, [], h => by simp at h
  | p :: ps, c1 :: cs1, c2 :: cs2, h => by
    simp only [List.length_cons, List.take_succ_cons, List.cons.injEq] at h
    simp [startsWith, h.1, startsWith_agree ps cs1 cs2 h.2]

theorem containsPat_drop (pat s : Str) (h : containsPat pat s = false) :
    ∀ i, startsWith pat (s.drop i) = false := by
  induction s with
  | nil =>
    intro i
    simpa [containsPat] using h
  | cons c cs ih =>
    simp only [containsPat, Bool.or_eq_false_iff] at h
    intro i
    cases i with
    | zero => exact h.1
    | succ j => exact ih h.2 j

theorem containsPat_cons_false (pat : Str) (c : Char) (s : Str)
    (h : containsPat pat (c :: s) = false) : containsPat pat s = false := by
  simp only [containsPat, Bool.or_eq_false_iff] at h
  exact h.2

theorem drop_append_le (X u : Str) (i : Nat) (h : i ≤ X.length) :
    (X ++ u).drop i = X.drop i ++ u := by
  rw [List.drop_append_eq_append_drop]
  have h0 : i - X.length = 0 := by omega
  simp [h0]

/-- If the delimiter `pat` does not occur in the content `X`, not even
straddling into the first `pat.length - 1` characters of the closing
delimiter itself, then no position strictly inside `X` starts an
occurrence of `pat` in `X ++ pat ++ anything`. -/
theorem no_early_of_extended (pat X sfx : Str)
    (h : containsPat pat (X ++ pat.take (pat.length - 1)) = false) :
    ∀ i, i < X.length →
      startsWith pat ((X ++ (pat ++ sfx)).drop i) = false := by
  intro i hi
  have h1 : (X ++ (pat ++ sfx)).drop i = X.drop i ++ (pat ++ sfx) :=
    drop_append_le _ _ _ (le_of_lt hi)
  have h2 : (X ++ pat.take (pat.length - 1)).drop i =
      X.drop i ++ pat.take (pat.length - 1) :=
    drop_append_le _ _ _ (le_of_lt hi)
  rw [h1]
  have hlen : 1 ≤ (X.drop i).length := by
    simp only [List.length_drop]; omega
  have key : startsWith pat (X.drop i ++ (pat ++ sfx)) =
      startsWith pat (X.drop i ++ pat.take (pat.length - 1)) := by
    apply startsWith_agree
    have hmle : pat.length - (X.drop i).length ≤ pat.length - 1 := by omega
    have h0 : pat.length - (X.drop i).length - pat.length = 0 := by omega
    have hmin : min (pat.length - (X.drop i).length) (pat.length - 1) =
        pat.length - (X.drop i).length := min_eq_left hmle
    have hBC : (pat ++ sfx).take (pat.length - (X.drop i).length) =
        (pat.take (pat.length - 1)).take (pat.length - (X.drop i).length) := by
      rw [List.take_append_eq_append_take, h0, List.take_zero,
        List.append_nil, List.take_take, hmin]
    conv_lhs => rw [List.take_append_eq_append_take]
    conv_rhs => rw [List.take_append_eq_append_take]
    rw [hBC]
  rw [key, ← h2]
  exact containsPat_drop _ _ h i

theorem splitAtPat_here (pat s : Str) (hne : pat ≠ [])
    (h : startsWith pat s = true) :
    splitAtPat pat s = some ([], s.drop pat.length) := by
  cases s with
  | nil =>
    cases pat with
    | nil => exact absurd rfl hne
    | cons p ps => simp [startsWith] at h
  | cons c cs => simp only [splitAtPat, h, if_true]

theorem splitAtPat_cons_of_not (pat : Str) (c : Char) (cs : Str)
    (h : startsWith pat (c :: cs) = false) :
    splitAtPat pat (c :: cs) =
      match splitAtPat pat cs with
      | some pr => some (c :: pr.1, pr.2)
      | none => none := by
  simp only [splitAtPat, h, Bool.false_eq_true, if_false]

/-- Splitting at the first occurrence of `pat` in `X ++ pat ++ sfx` yields
`(X, sfx)` when no occurrence starts inside `X`. -/
theorem splitAtPat_exact (pat : Str) (hne : pat ≠ []) :
    ∀ (X sfx : Str),
    (∀ i, i < X.length → startsWith pat ((X ++ (pat ++ sfx)).drop i) = false) →
    splitAtPat pat (X ++ (pat ++ sfx)) = some (X, sfx) := by
  intro X
  induction X with
  | nil =>
    intro sfx _
    rw [List.nil_append,
      splitAtPat_here pat (pat ++ sfx) hne (startsWith_self pat sfx),
      List.drop_left]
  | cons x X' ih =>
    intro sfx hno
    have h0 : startsWith pat (x :: (X' ++ (pat ++ sfx))) = false := by
      have := hno 0 (by simp)
      simpa using this
    have ih' := ih sfx (fun i hi => by
      have := hno (i + 1) (by simp; omega)
      simpa using this)
    rw [List.cons_append, splitAtPat_cons_of_not pat x _ h0, ih']

theorem isWordChar_nl : isWordChar '\n' = false := by decide

theorem afterWordRun_word : ∀ (w s : Str), w.all isWordChar = true →
    afterWordRun (w ++ s) = afterWordRun s
  | [], _, _ => rfl
  | c :: cs, s, h => by
    simp only [List.all_cons, Bool.and_eq_true] at h
    simp [afterWordRun, h.1, afterWordRun_word cs s h.2]

theorem afterWordRun_nl (rest : Str) : afterWordRun ('\n' :: rest) = '\n' :: rest := by
  simp [afterWordRun, isWordChar_nl]

theorem tagSplit_word (w rest : Str) (hne : w ≠ [])
    (hall : w.all isWordChar = true) : tagSplit (w ++ '\n' :: rest) = some rest := by
  cases w with
  | nil => exact absurd rfl hne
  | cons c cs =>
    simp only [List.all_cons, Bool.and_eq_true] at hall
    rw [List.cons_append]
    simp only [tagSplit, hall.1, if_true]
    rw [afterWordRun_word cs _ hall.2, afterWordRun_nl]
    rfl

theorem tagSplit_nonword (c : Char) (cs : Str) (h : isWordChar c = false) :
    tagSplit (c :: cs) = none := by
  simp [tagSplit, h]

theorem afterWordRun_ne_append (cs z : Str) (h : afterWordRun cs ≠ []) :
    afterWordRun (cs ++ z) = afterWordRun cs ++ z := by
  induction cs with
  | nil => simp [afterWordRun] at h
  | cons c cs' ih =>
    by_cases hc : isWordChar c
    · simp only [afterWordRun, hc, if_true] at h
      rw [List.cons_append]
      simp only [afterWordRun, hc, if_true]
      exact ih h
    · rw [List.cons_append]
      simp [afterWordRun, hc]

theorem afterWordRun_nil_append (cs z : Str) (h : afterWordRun cs = []) :
    afterWordRun (cs ++ z) = afterWordRun z := by
  induction cs with
  | nil => rfl
  | cons c cs' ih =>
    by_cases hc : isWordChar c
    · simp only [afterWordRun, hc, if_true] at h
      rw [List.cons_append]
      simp only [afterWordRun, hc, if_true]
      exact ih h
    · simp [afterWordRun, hc] at h

theorem tagSplit_none_append (inner : Str) (b : Char) (z : Str)
    (hb : isWordChar b = false) (hbn : (b == '\n') = false)
    (h : startsTagLine inner = false) :
    tagSplit (inner ++ b :: z) = none := by
  cases inner with
  | nil =>
    rw [List.nil_append]
    exact tagSplit_nonword b z hb
  | cons c cs =>
    by_cases hc : isWordChar c
    · simp only [startsTagLine, hc, Bool.true_and] at h
      rw [List.cons_append]
      simp only [tagSplit, hc, if_true]
      cases hcs : afterWordRun cs with
      | nil =>
        rw [afterWordRun_nil_append cs _ hcs]
        rw [show afterWordRun (b :: z) = b :: z from by simp [afterWordRun, hb]]
        split
        · rename_i rest heq
          rw [List.cons.injEq] at heq
          exact absurd heq.1 (by simpa using hbn)
        · rfl
      | cons d r =>
        rw [afterWordRun_ne_append cs (b :: z) (by rw [hcs]; exact List.cons_ne_nil d r),
          hcs]
        rw [hcs] at h
        have hd : ¬ d = '\n' := by
          intro he
          subst he
          simp at h
        rw [List.cons_append]
        split
        · rename_i rest heq
          rw [List.cons.injEq] at heq
          exact absurd heq.1 hd
        · rfl
    · rw [List.cons_append]
      exact tagSplit_nonword c _ (by simpa using hc)

theorem fenceContent_tag (close w X sfx : Str) (hclose : close ≠ [])
    (hw : w ≠ []) (hall : w.all isWordChar = true)
    (hno : ∀ i, i < X.length →
      startsWith close ((X ++ (close ++ sfx)).drop i) = false) :
    fenceContent close (w ++ '\n' :: (X ++ (close ++ sfx))) = some (X, sfx) := by
  simp only [fenceContent, tagSplit_word w _ hw hall,
    splitAtPat_exact close hclose X sfx hno]

theorem fenceContent_notag (close X sfx : Str) (hclose : close ≠ [])
    (htag : tagSplit (X ++ (close ++ sfx)) = none)
    (hno : ∀ i, i < X.length →
      startsWith close ((X ++ (close ++ sfx)).drop i) = false) :
    fenceContent close (X ++ (close ++ sfx)) = some (X, sfx) := by
  simp only [fenceContent, htag, splitAtPat_exact close hclose X sfx hno]

theorem matchLabelAt_block (name T : Str) :
    matchLabelAt name
      ('*' :: '*' :: (name ++ ('*' :: '*' :: '\n' :: (bt3 ++ T)))) =
      fenceContent nlMark T := by
  have h1 := stripLit_self ['*', '*'] (name ++ ('*' :: '*' :: '\n' :: (bt3 ++ T)))
  simp only [List.cons_append, List.nil_append] at h1
  have h2 := stripLit_self ('*' :: '*' :: '\n' :: bt3) T
  simp only [List.cons_append] at h2
  simp only [matchLabelAt, h1, stripName_self name ('*' :: '*' :: '\n' :: (bt3 ++ T)), h2]

theorem endFlag_getLast : ∀ (pre : Str) (flag : Bool),
    pre.getLast? = some '\n' → endFlag flag pre = true
  | [], _, h => by simp at h
  | [c], flag, h => by
    simp only [List.getLast?_singleton, Option.some.injEq] at h
    subst h
    rfl
  | c :: d :: rest, flag, h => by
    rw [List.getLast?_cons_cons] at h
    exact endFlag_getLast (d :: rest) (c == '\n') h

theorem endFlag_start (pre : Str)
    (h : pre = [] ∨ pre.getLast? = some '\n') : endFlag true pre = true := by
  cases h with
  | inl h => subst h; rfl
  | inr h => exact endFlag_getLast pre true h

theorem searchLabeled_skip (name : Str) :
    ∀ (pre : Str) (flag : Bool) (rest : Str),
    (∀ i, i < pre.length → matchLabelAt name ((pre ++ rest).drop i) = none) →
    searchLabeled name flag (pre ++ rest) =
      searchLabeled name (endFlag flag pre) rest
  | [], flag, rest, _ => by rw [List.nil_append]; rfl
  | c :: pre', flag, rest, h => by
    have h0 : matchLabelAt name (c :: (pre' ++ rest)) = none := by
      have := h 0 (by simp)
      simpa using this
    have hrec := searchLabeled_skip name pre' (c == '\n') rest (fun i hi => by
      have := h (i + 1) (by simpa using Nat.succ_lt_succ hi)
      simpa using this)
    rw [List.cons_append]
    cases flag with
    | false =>
      simp only [searchLabeled, if_false]
      exact hrec
    | true =>
      simp only [searchLabeled, if_true, h0]
      exact hrec

theorem searchLabeled_here (name : Str) (c : Char) (cs : Str) (pr : Str × Str)
    (h : matchLabelAt name (c :: cs) = some pr) :
    searchLabeled name true (c :: cs) = some pr.1 := by
  simp only [searchLabeled, if_true, h]

theorem pySpace_nl : pySpace '\n' = true := by decide

theorem trim_cons_nl (l : Str) : trim ('\n' :: l) = trim l := by
  simp [trim, List.dropWhile_cons, pySpace_nl]

/-- Claim C1: for every response text containing a valid labeled block —
a line `**file_name**` at a line start (`hstart`), immediately followed by
a fenced code block whose opening fence optionally carries a language tag
(`htag`), with no earlier position matching the labeled pattern
(`hfirst`) — `extract_content_from_result` returns exactly the trimmed
inner text between the matching fences.  The hypothesis `hbody` says
precisely that the closing delimiter `\n```​` does not occur inside the
fence body (extended by the first three delimiter characters to also rule
out occurrences straddling the body's end): an internal fence-like
substring that is *not* part of such a closing-delimiter occurrence — for
example a ``` in the middle of a line — is allowed and does not terminate
the match prematurely. -/
theorem extract_labeled_block_spec
    (pre name tagPart body suffix : Str) (msb : Bool)
    (hstart : pre = [] ∨ pre.getLast? = some '\n')
    (htag : tagPart = [] ∨ (tagPart ≠ [] ∧ tagPart.all isWordChar = true))
    (hbody : containsPat nlMark ('\n' :: body ++ nlMark.take 3) = false)
    (hfirst : ∀ i, i < pre.length →
      matchLabelAt name
        ((pre ++ ('*' :: '*' :: (name ++ ('*' :: '*' :: '\n' ::
          (bt3 ++ (tagPart ++ '\n' :: (body ++ (nlMark ++ suffix)))))))).drop i)
        = none) :
    extract_content_from_result
      (pre ++ ('*' :: '*' :: (name ++ ('*' :: '*' :: '\n' ::
        (bt3 ++ (tagPart ++ '\n' :: (body ++ (nlMark ++ suffix))))))))
      name msb = trim body := by
  have hnl : nlMark ≠ [] := by simp [nlMark]
  have htake : nlMark.take (nlMark.length - 1) = nlMark.take 3 := by
    simp [nlMark, bt3]
  -- The fence body parses to the expected content group.
  have hfence : ∃ content,
      fenceContent nlMark (tagPart ++ '\n' :: (body ++ (nlMark ++ suffix))) =
        some (content, suffix) ∧ trim content = trim body := by
    cases htag with
    | inl h0 =>
      subst h0
      refine ⟨'\n' :: body, ?_, trim_cons_nl body⟩
      have hX : ('\n' :: body) ++ (nlMark ++ suffix) =
          [] ++ '\n' :: (body ++ (nlMark ++ suffix)) := by simp
      have htagn : tagSplit (('\n' :: body) ++ (nlMark ++ suffix)) = none := by
        rw [List.cons_append]
        exact tagSplit_nonword '\n' _ isWordChar_nl
      have hext : containsPat nlMark
          (('\n' :: body) ++ nlMark.take (nlMark.length - 1)) = false := by
        rw [htake]
        simpa using hbody
      have := fenceContent_notag nlMark ('\n' :: body) suffix hnl htagn
        (no_early_of_extended nlMark ('\n' :: body) suffix hext)
      rw [hX] at this
      exact this
    | inr h0 =>
      refine ⟨body, ?_, rfl⟩
      have hext : containsPat nlMark
          (body ++ nlMark.take (nlMark.length - 1)) = false := by
        rw [htake]
        apply containsPat_cons_false nlMark '\n'
        simpa using hbody
      exact fenceContent_tag nlMark tagPart body suffix hnl h0.1 h0.2
        (no_early_of_extended nlMark body suffix hext)
  obtain ⟨content, hfc, htrim⟩ := hfence
  -- The labeled pattern matches at the block's position.
  have hmatch : matchLabelAt name
      ('*' :: '*' :: (name ++ ('*' :: '*' :: '\n' ::
        (bt3 ++ (tagPart ++ '\n' :: (body ++ (nlMark ++ suffix))))))) =
      some (content, suffix) := by
    rw [matchLabelAt_block name (tagPart ++ '\n' :: (body ++ (nlMark ++ suffix)))]
    exact hfc
  -- The search scans over the prefix and returns this match.
  have hsearch : searchLabeled name true
      (pre ++ ('*' :: '*' :: (name ++ ('*' :: '*' :: '\n' ::
        (bt3 ++ (tagPart ++ '\n' :: (body ++ (nlMark ++ suffix))))))))
      = some content := by
    rw [searchLabeled_skip name pre true _ hfirst, endFlag_start pre hstart]
    exact searchLabeled_here name '*' _ (content, suffix) hmatch
  simp only [extract_content_from_result, hsearch, htrim]

theorem extract_labeled_block_spec_witness :
    extract_content_from_result
      (str "intro\n" ++ ('*' :: '*' :: (str "microservice.py" ++
        ('*' :: '*' :: '\n' :: (bt3 ++ (str "python" ++
          '\n' :: (str "x = 1 ``` ok\ny = 2" ++ (nlMark ++ str "\ntail"))))))))
      (str "microservice.py") true = trim (str "x = 1 ``` ok\ny = 2") :=
  extract_labeled_block_spec (str "intro\n") (str "microservice.py")
    (str "python") (str "x = 1 ``` ok\ny = 2") (str "\ntail") true
    (by decide) (by decide) (by decide) (by decide)

theorem stripLit_length : ∀ (p s r : Str), stripLit p s = some r →
    r.length + p.length = s.length
  | [], s, r, h => by
    simp only [stripLit, Option.some.injEq] at h
    subst h
    simp
  | _ :: _, [], r, h => by simp [stripLit] at h
  | p :: ps, c :: cs, r, h => by
    by_cases hpc : p == c
    · simp only [stripLit, hpc, if_true] at h
      have := stripLit_length ps cs r h
      simp only [List.length_cons]
      omega
    · simp [stripLit, hpc] at h

theorem splitAtPat_rest_length : ∀ (pat s : Str) (pr : Str × Str),
    splitAtPat pat s = some pr → pr.2.length + pat.length ≤ s.length
  | pat, [], pr, h => by
    by_cases hs : startsWith pat []
    · have : pat = [] := by
        cases pat with
        | nil => rfl
        | cons p ps => simp [startsWith] at hs
      subst this
      simp only [splitAtPat, if_pos hs, Option.some.injEq] at h
      subst h
      simp
    · simp [splitAtPat, hs] at h
  | pat, c :: cs, pr, h => by
    by_cases hs : startsWith pat (c :: cs)
    · simp only [splitAtPat, hs, if_true, Option.some.injEq] at h
      subst h
      have hle := startsWith_length pat (c :: cs) hs
      simp only [List.length_drop]
      omega
    · simp only [splitAtPat, hs, Bool.false_eq_true, if_false] at h
      cases hrec : splitAtPat pat cs with
      | none => rw [hrec] at h; simp at h
      | some pr' =>
        rw [hrec] at h
        simp only [Option.some.injEq] at h
        subst h
        have := splitAtPat_rest_length pat cs pr' hrec
        simp only [List.length_cons]
        omega

theorem afterWordRun_length : ∀ (s : Str), (afterWordRun s).length ≤ s.length
  | [] => le_refl _
  | c :: cs => by
    by_cases hc : isWordChar c
    · simp only [afterWordRun, hc, if_true]
      have := afterWordRun_length cs
      simp only [List.length_cons]
      omega
    · simp [afterWordRun, hc]

theorem tagSplit_length (s rest : Str) (h : tagSplit s = some rest) :
    rest.length < s.length := by
  cases s with
  | nil => simp [tagSplit] at h
  | cons c cs =>
    by_cases hc : isWordChar c
    · simp only [tagSplit, hc, if_true] at h
      cases hw : afterWordRun cs with
      | nil => rw [hw] at h; simp at h
      | cons d r =>
        rw [hw] at h
        have hlen : (afterWordRun cs).length ≤ cs.length := afterWordRun_length cs
        rw [hw] at hlen
        cases hd : d == '\n'
        · rw [show d = d from rfl] at h
          have : ¬ d = '\n' := by simpa using hd
          split at h
          · rename_i heq
            rw [List.cons.injEq] at heq
            exact absurd heq.1 this
          · simp at h
        · have hdn : d = '\n' := by simpa using hd
          subst hdn
          simp only [Option.some.injEq] at h
          subst h
          simp only [List.length_cons] at hlen ⊢
          omega
    · simp [tagSplit, hc] at h

theorem fenceContent_rest_length (close s : Str) (pr : Str × Str)
    (hclose : close ≠ []) (h : fenceContent close s = some pr) :
    pr.2.length < s.length := by
  have hcl : 1 ≤ close.length := by
    cases close with
    | nil => exact absurd rfl hclose
    | cons a b => simp
  unfold fenceContent at h
  cases ht : tagSplit s with
  | none =>
    rw [ht] at h
    have := splitAtPat_rest_length close s pr h
    omega
  | some rest =>
    simp only [ht] at h
    have hrl := tagSplit_length s rest ht
    cases hsp : splitAtPat close rest with
    | some pr' =>
      simp only [hsp, Option.some.injEq] at h
      subst h
      have := splitAtPat_rest_length close rest pr' hsp
      omega
    | none =>
      simp only [hsp] at h
      have := splitAtPat_rest_length close s pr h
      omega

theorem matchSingleAt_rest_length (s : Str) (pr : Str × Str)
    (h : matchSingleAt s = some pr) : pr.2.length < s.length := by
  unfold matchSingleAt at h
  cases hs : stripLit bt3 s with
  | none => rw [hs] at h; simp at h
  | some s1 =>
    rw [hs] at h
    have h1 := stripLit_length bt3 s s1 hs
    have h2 := fenceContent_rest_length bt3 s1 pr (by simp [bt3]) h
    omega

theorem findAllAux_fuel : ∀ (f1 f2 : Nat) (flag : Bool) (s : Str),
    s.length < f1 → s.length < f2 → findAllAux f1 flag s = findAllAux f2 flag s := by
  intro f1
  induction f1 with
  | zero => intro f2 flag s h1 _; omega
  | succ a ih =>
    intro f2 flag s h1 h2
    cases f2 with
    | zero => omega
    | succ b =>
      cases s with
      | nil => rfl
      | cons c cs =>
        have hlen : cs.length + 1 = (c :: cs).length := by simp
        cases hm : (if flag then matchSingleAt (c :: cs) else none) with
        | some cr =>
          have hms : matchSingleAt (c :: cs) = some cr := by
            cases flag with
            | false => simp at hm
            | true => simpa using hm
          have hlt : cr.2.length < (c :: cs).length :=
            matchSingleAt_rest_length _ _ hms
          have ha : cr.2.length < a := by omega
          have hb : cr.2.length < b := by omega
          simp only [findAllAux, hm]
          rw [ih b false cr.2 ha hb]
        | none =>
          simp only [findAllAux, hm]
          exact ih b (c == '\n') cs (by omega) (by omega)


theorem findAll_skip : ∀ (pre : Str) (flag : Bool) (rest : Str),
    (∀ i, i < pre.length → matchSingleAt ((pre ++ rest).drop i) = none) →
    findAllFrom flag (pre ++ rest) = findAllFrom (endFlag flag pre) rest
  | [], flag, rest, _ => by rw [List.nil_append]; rfl
  | c :: pre', flag, rest, h => by
    have h0 : matchSingleAt (c :: (pre' ++ rest)) = none := by
      have := h 0 (by simp)
      simpa using this
    have hrec := findAll_skip pre' (c == '\n') rest (fun i hi => by
      have := h (i + 1) (by simpa using Nat.succ_lt_succ hi)
      simpa using this)
    have hm : (if flag then matchSingleAt (c :: (pre' ++ rest)) else none) = none := by
      cases flag <;> simp [h0]
    rw [List.cons_append]
    have hEnd : endFlag flag (c :: pre') = endFlag (c == '\n') pre' := rfl
    rw [hEnd, ← hrec]
    unfold findAllFrom
    have hL : (c :: (pre' ++ rest)).length + 1 = ((pre' ++ rest).length + 1) + 1 := by
      simp
    rw [hL]
    simp only [findAllAux, hm]

theorem findAllFrom_cons_match (c : Char) (cs : Str) (pr : Str × Str)
    (hm : matchSingleAt (c :: cs) = some pr) :
    findAllFrom true (c :: cs) = pr.1 :: findAllFrom false pr.2 := by
  have hlt : pr.2.length < (c :: cs).length := matchSingleAt_rest_length _ _ hm
  unfold findAllFrom
  have hL : (c :: cs).length + 1 = ((c :: cs).length) + 1 := rfl
  show findAllAux (cs.length + 1 + 1) true (c :: cs) = pr.1 :: findAllAux (pr.2.length + 1) false pr.2
  simp only [findAllAux, if_true, hm]
  rw [findAllAux_fuel (cs.length + 1) (pr.2.length + 1) false pr.2
    (by simp at hlt; omega) (by omega)]

theorem matchSingleAt_block (R : Str) :
    matchSingleAt (bt3 ++ R) = fenceContent bt3 R := by
  simp only [matchSingleAt, stripLit_self bt3 R]

/-- Claim C7: when no labeled block matches (`hNoLabel`) and
`match_single_block` is true, `extract_content_from_result` returns the
trimmed content of the response's single unlabeled fenced block if the
response contains exactly one such block (first conjunct: the single block
sits at a line start, no single-block match starts in the prefix, the
delimiter does not occur early — `containsPat bt3 (inner ++ bt3.take 2)`
also excludes straddling occurrences — and the continuation after the
block contains no further match), and returns the empty text for every
response whose number of unlabeled block matches is not exactly one
(second conjunct). -/
theorem extract_single_block_spec :
    (∀ (pre L inner suffix name : Str),
      (pre = [] ∨ pre.getLast? = some '\n') →
      ((L = [] ∧ startsTagLine inner = false) ∨
        (∃ w, L = w ++ ['\n'] ∧ w ≠ [] ∧ w.all isWordChar = true)) →
      containsPat bt3 (inner ++ bt3.take 2) = false →
      searchLabeled name true
        (pre ++ (bt3 ++ (L ++ (inner ++ (bt3 ++ suffix))))) = none →
      (∀ i, i < pre.length →
        matchSingleAt
          ((pre ++ (bt3 ++ (L ++ (inner ++ (bt3 ++ suffix))))).drop i) = none) →
      findAllFrom false suffix = [] →
      extract_content_from_result
        (pre ++ (bt3 ++ (L ++ (inner ++ (bt3 ++ suffix))))) name true
        = trim inner) ∧
    (∀ (text name : Str),
      searchLabeled name true text = none →
      (findAllFrom true text).length ≠ 1 →
      extract_content_from_result text name true = []) := by
  constructor
  · intro pre L inner suffix name hstart hL hInner hNoLabel hPre hSuffix
    have hcl : bt3 ≠ [] := by simp [bt3]
    have htake2 : bt3.take (bt3.length - 1) = bt3.take 2 := by simp [bt3]
    have hext : containsPat bt3 (inner ++ bt3.take (bt3.length - 1)) = false := by
      rw [htake2]; exact hInner
    have hno := no_early_of_extended bt3 inner suffix hext
    have hfc : fenceContent bt3 (L ++ (inner ++ (bt3 ++ suffix))) =
        some (inner, suffix) := by
      cases hL with
      | inl h0 =>
        obtain ⟨hL0, hTag⟩ := h0
        subst hL0
        rw [List.nil_append]
        have htagn : tagSplit (inner ++ (bt3 ++ suffix)) = none := by
          have h1 : inner ++ (bt3 ++ suffix) =
              inner ++ btChar :: (btChar :: btChar :: suffix) := by
            simp [bt3]
          rw [h1]
          exact tagSplit_none_append inner btChar _ (by decide) (by decide) hTag
        exact fenceContent_notag bt3 inner suffix hcl htagn hno
      | inr h0 =>
        obtain ⟨w, hw, hne, hall⟩ := h0
        subst hw
        have h1 : (w ++ ['\n']) ++ (inner ++ (bt3 ++ suffix)) =
            w ++ '\n' :: (inner ++ (bt3 ++ suffix)) := by simp
        rw [h1]
        exact fenceContent_tag bt3 w inner suffix hcl hne hall hno
    have hm : matchSingleAt (bt3 ++ (L ++ (inner ++ (bt3 ++ suffix)))) =
        some (inner, suffix) := by
      rw [matchSingleAt_block]; exact hfc
    have hfind : findAllFrom true
        (pre ++ (bt3 ++ (L ++ (inner ++ (bt3 ++ suffix))))) = [inner] := by
      rw [findAll_skip pre true _ hPre, endFlag_start pre hstart]
      have hcons : bt3 ++ (L ++ (inner ++ (bt3 ++ suffix))) =
          btChar :: (btChar :: btChar :: (L ++ (inner ++ (bt3 ++ suffix)))) := by
        simp [bt3]
      rw [hcons] at hm ⊢
      rw [findAllFrom_cons_match btChar _ (inner, suffix) hm]
      simp [hSuffix]
    simp only [extract_content_from_result, hNoLabel, if_true, hfind]
  · intro text name h1 h2
    cases hf : findAllFrom true text with
    | nil => simp [extract_content_from_result, h1, hf]
    | cons a tl =>
      cases tl with
      | nil => rw [hf] at h2; simp at h2
      | cons b tl2 => simp [extract_content_from_result, h1, hf]

theorem extract_single_block_spec_witness :
    extract_content_from_result
      (str "nolabel\n" ++ (bt3 ++ ([] ++ (str "\nz\n" ++ (bt3 ++ str "\ntail")))))
      (str "a.py") true = trim (str "\nz\n") ∧
    extract_content_from_result (str "no code here") (str "a.py") true = [] :=
  ⟨extract_single_block_spec.1 (str "nolabel\n") [] (str "\nz\n")
      (str "\ntail") (str "a.py") (by decide) (Or.inl ⟨rfl, by decide⟩)
      (by decide) (by decide) (by decide) (by decide),
   extract_single_block_spec.2 (str "no code here") (str "a.py")
      (by decide) (by decide)⟩

/-! ## Lemmas about file maps and the debug fold -/

theorem lookup_update : ∀ (m : FileMap) (k v k' : Str),
    lookupMap (updateMap m k v) k' = if k = k' then some v else lookupMap m k'
  | [], k, v, k' => by
    by_cases h : k = k'
    · subst h; simp [updateMap, lookupMap]
    · simp [updateMap, lookupMap, h]
  | (pk, pv) :: rest, k, v, k' => by
    by_cases hpk : pk = k
    · subst hpk
      have hb : (pk == pk) = true := by simp
      simp only [updateMap, hb, if_true]
      by_cases h2 : pk = k'
      · subst h2; simp [lookupMap]
      · have hb2 : (pk == k') = false := by simpa using h2
        simp [lookupMap, hb2, h2]
    · have hb : (pk == k) = false := by simpa using hpk
      simp only [updateMap, hb, Bool.false_eq_true, if_false]
      by_cases h2 : pk = k'
      · subst h2
        have hk : ¬ k = pk := fun he => hpk he.symm
        simp [lookupMap, hk]
      · have hb2 : (pk == k') = false := by simpa using h2
        simp only [lookupMap, hb2, Bool.false_eq_true, if_false]
        exact lookup_update rest k v k'

theorem lookup_cond_update (m : FileMap) (k v k' : Str) (c : Bool) :
    lookupMap (if c then updateMap m k v else m) k' =
      if c ∧ k = k' then some v else lookupMap m k' := by
  cases c with
  | false => simp
  | true => simp [lookup_update]

theorem foldl_cond_update (C : Str → Bool) (V : Str → Str) :
    ∀ (l : List (Str × Str)) (acc : FileMap) (k : Str),
    (l.map Prod.fst).Nodup →
    lookupMap
      (l.foldl (fun acc p => if C p.1 then updateMap acc p.1 (V p.1) else acc)
        acc) k =
      if (l.map Prod.fst).contains k ∧ C k = true then some (V k)
      else lookupMap acc k
  | [], acc, k, _ => by simp
  | (pk, pv) :: rest, acc, k, hnd => by
    simp only [List.map_cons, List.nodup_cons] at hnd
    have ih := foldl_cond_update C V rest
      (if C pk then updateMap acc pk (V pk) else acc) k hnd.2
    simp only [List.foldl_cons]
    rw [ih, lookup_cond_update]
    by_cases hk : pk = k
    · subst hk
      have hcont : (rest.map Prod.fst).contains pk = false := by
        simpa using hnd.1
      simp only [hcont, Bool.false_eq_true, false_and, if_false]
      by_cases hc : C pk = true
      · simp [hc]
      · simp [hc]
    · have hb : ((pk :: rest.map Prod.fst).contains k) =
          ((rest.map Prod.fst).contains k) := by
        have hkk : (k == pk) = false := by
          simpa using fun he => hk he.symm
        simp only [List.contains_cons, hkk, Bool.false_or]
      simp only [List.map_cons, hb]
      by_cases hc : C pk = true
      · simp [hc, hk]
      · simp [hc, hk]

/-- Claim C3: every repair iteration produces a complete successor version:
it contains every file of the predecessor (first conjunct; the predecessor
map itself is a pure value and is never mutated), a dependency-classified
repair leaves every file other than requirements.txt and Dockerfile exactly
as in the predecessor (second conjunct), and a code-classified repair
replaces exactly the recognized file kinds extracted non-empty from the
model reply, carrying every other file forward unchanged (third conjunct,
an exact characterization of every lookup in the successor). -/
theorem debug_iteration_frame_spec (env : DebugEnv) (error : Str)
    (prev : FileMap) :
    (∀ k v, lookupMap prev k = some v →
      (lookupMap (do_debug_iteration env error prev) k).isSome = true) ∧
    (debugIsDep env error prev = true →
      ∀ k, k ≠ str "requirements.txt" → k ≠ str "Dockerfile" →
        lookupMap (do_debug_iteration env error prev) k = lookupMap prev k) ∧
    (debugIsDep env error prev = false →
      ∀ k, lookupMap (do_debug_iteration env error prev) k =
        if recognizedFiles.contains k ∧
            extract_content_from_result (debugRaw env error prev) k false ≠ []
        then some (extract_content_from_result (debugRaw env error prev) k false)
        else lookupMap prev k) := by
  have hnd : (FILE_AND_TAG_PAIRS.map Prod.fst).Nodup := by decide
  have hfold := foldl_cond_update
    (fun s =>
      decide (extract_content_from_result (debugRaw env error prev) s false ≠ []) &&
        (!(debugIsDep env error prev) ||
          (s == str "requirements.txt" || s == str "Dockerfile")))
    (fun s => extract_content_from_result (debugRaw env error prev) s false)
    FILE_AND_TAG_PAIRS prev
  have hdef : do_debug_iteration env error prev =
      FILE_AND_TAG_PAIRS.foldl
        (fun acc p =>
          if (decide (extract_content_from_result (debugRaw env error prev)
                p.1 false ≠ []) &&
              (!(debugIsDep env error prev) ||
                (p.1 == str "requirements.txt" || p.1 == str "Dockerfile")))
          then updateMap acc p.1
            (extract_content_from_result (debugRaw env error prev) p.1 false)
          else acc) prev := rfl
  refine ⟨?_, ?_, ?_⟩
  · intro k v hv
    rw [hdef, hfold k hnd]
    split
    · simp
    · simp [hv]
  · intro hdep k hk1 hk2
    rw [hdef, hfold k hnd]
    have hb1 : (k == str "requirements.txt") = false := by simpa using hk1
    have hb2 : (k == str "Dockerfile") = false := by simpa using hk2
    simp [hdep, hb1, hb2]
  · intro hdep k
    rw [hdef, hfold k hnd]
    simp only [hdep, Bool.not_false, Bool.true_or, Bool.or_true, Bool.and_true]
    simp only [recognizedFiles, decide_eq_true_eq]

/-- A concrete collaborator environment used by witnesses: every push logs
the same text, error extraction is the identity, the classifier oracle
answers negatively and the repair oracle returns one labeled block. -/
def sampleEnv : DebugEnv where
  pushLog := fun _ => str "boom"
  processError := fun s => s
  inHub := fun _ => true
  summarize := fun s => s
  depOracle := fun _ => str "It is not a dependency issue."
  solveOracle := fun _ => str "**microservice.py**\n```python\nfixed = 1\n```"
  mkDepQuery := fun a b => a ++ b
  mkCodeQuery := fun a b => a ++ b

theorem debug_iteration_frame_spec_witness :
    lookupMap (do_debug_iteration sampleEnv (str "RuntimeError: boom")
      [(str "microservice.py", str "old"), (str "Dockerfile", str "FROM x"),
       (str "config.yml", str "cfg")]) (str "config.yml") =
      some (str "cfg") := by
  rw [(debug_iteration_frame_spec sampleEnv (str "RuntimeError: boom")
    [(str "microservice.py", str "old"), (str "Dockerfile", str "FROM x"),
     (str "config.yml", str "cfg")]).2.2 (by decide) (str "config.yml")]
  decide

/-! ## Lemmas about the debug loop -/

theorem debugAux_trace (env : DebugEnv) : ∀ (fuel i : Nat) (acc : List Nat),
    ∃ k, k ≤ fuel ∧
      repairsOf (debugAux env fuel i acc) = acc ++ List.range' i k := by
  intro fuel
  induction fuel with
  | zero =>
    intro i acc
    exact ⟨0, le_refl 0, by simp [debugAux, repairsOf]⟩
  | succ f ih =>
    intro i acc
    by_cases he : env.processError (env.pushLog i) ≠ []
    · by_cases hf : f = 0
      · subst hf
        refine ⟨1, le_refl 1, ?_⟩
        simp [debugAux, he, repairsOf, List.range'_one]
      · obtain ⟨k, hk, hrep⟩ := ih (i + 1) (acc ++ [i])
        refine ⟨k + 1, by omega, ?_⟩
        have hstep : debugAux env (f + 1) i acc =
            debugAux env f (i + 1) (acc ++ [i]) := by
          simp [debugAux, he, hf]
        rw [hstep, hrep, List.range'_succ]
        simp
    · refine ⟨0, Nat.zero_le _, ?_⟩
      by_cases hh : env.inHub i
      · simp [debugAux, he, hh, repairsOf]
      · simp [debugAux, he, hh, repairsOf]

theorem debugAux_all_error (env : DebugEnv) : ∀ (f start : Nat) (acc : List Nat),
    (∀ j, start ≤ j → j < start + (f + 1) →
      env.processError (env.pushLog j) ≠ []) →
    debugAux env (f + 1) start acc =
      .maxDebugTimeReached (acc ++ List.range' start (f + 1)) := by
  intro f
  induction f with
  | zero =>
    intro start acc h
    have he := h start (le_refl _) (by omega)
    simp [debugAux, he, List.range'_one]
  | succ f' ih =>
    intro start acc h
    have he := h start (le_refl _) (by omega)
    have hstep : debugAux env (f' + 1 + 1) start acc =
        debugAux env (f' + 1) (start + 1) (acc ++ [start]) := by
      simp [debugAux, he]
    rw [hstep, ih (start + 1) (acc ++ [start])
      (fun j h1 h2 => h j (by omega) (by omega))]
    have hr : List.range' start (f' + 1 + 1) =
        start :: (start + 1) :: List.range' (start + 1 + 1) f' := by
      rw [List.range'_succ, List.range'_succ]
    rw [hr]
    simp [List.range'_succ]

theorem debugAux_reach (env : DebugEnv) : ∀ (fuel start i : Nat) (acc : List Nat),
    start ≤ i → i < start + fuel →
    (∀ j, start ≤ j → j < i → env.processError (env.pushLog j) ≠ []) →
    env.processError (env.pushLog i) = [] →
    debugAux env fuel start acc =
      (if env.inHub i then
        DebugOutcome.success i (acc ++ List.range' start (i - start))
      else DebugOutcome.notInHub i (acc ++ List.range' start (i - start))) := by
  intro fuel
  induction fuel with
  | zero => intro start i acc h1 h2 _ _; omega
  | succ f ih =>
    intro start i acc h1 h2 hbefore hi
    by_cases hsi : start = i
    · subst hsi
      have hsub : start - start = 0 := by omega
      by_cases hh : env.inHub start <;>
        simp [debugAux, hi, hh, hsub]
    · have hlt : start < i := by omega
      have he := hbefore start (le_refl _) hlt
      have hf : f ≠ 0 := by omega
      have hstep : debugAux env (f + 1) start acc =
          debugAux env f (start + 1) (acc ++ [start]) := by
        simp [debugAux, he, hf]
      rw [hstep, ih (start + 1) i (acc ++ [start]) (by omega) (by omega)
        (fun j hj1 hj2 => hbefore j (by omega) hj2) hi]
      have hr : List.range' start (i - start) =
          start :: List.range' (start + 1) (i - start - 1) := by
        have h0 : i - start = (i - start - 1) + 1 := by omega
        conv_lhs => rw [h0]
        rw [List.range'_succ]
      have hr2 : i - (start + 1) = i - start - 1 := by omega
      rw [hr, hr2]
      by_cases hh : env.inHub i <;> simp [hh]

/-- Claim C2: for every approach, the debug loop performs at most
`MAX_DEBUGGING_ITERATIONS - 1` repair iterations (first conjunct: the
repair trace of any outcome has length at most `MAX - 1`), the loop
indices of the repairs it performs are consecutive integers starting at 1
(second conjunct; the repair at index `i` writes candidate version
`i + 1`), and if every allowed iteration up to the last one still
produces a build error, the loop ends by raising
`MaxDebugTimeReachedException` rather than continuing (third conjunct). -/
theorem debug_loop_bound_spec (env : DebugEnv) (MAX : Nat) :
    (repairsOf (debug_microservice env MAX)).length ≤ MAX - 1 ∧
    repairsOf (debug_microservice env MAX) =
      List.range' 1 (repairsOf (debug_microservice env MAX)).length ∧
    (2 ≤ MAX →
      (∀ j, 1 ≤ j → j ≤ MAX - 1 → env.processError (env.pushLog j) ≠ []) →
      debug_microservice env MAX =
        .maxDebugTimeReached (List.range' 1 (MAX - 1))) := by
  obtain ⟨k, hk, hrep⟩ := debugAux_trace env (MAX - 1) 1 []
  have h1 : repairsOf (debug_microservice env MAX) = List.range' 1 k := by
    unfold debug_microservice
    rw [hrep, List.nil_append]
  refine ⟨?_, ?_, ?_⟩
  · rw [h1]
    simpa [List.length_range'] using hk
  · rw [h1]
    simp [List.length_range']
  · intro hM hall
    unfold debug_microservice
    have hM1 : MAX - 1 = (MAX - 2) + 1 := by omega
    rw [hM1, debugAux_all_error env (MAX - 2) 1 []
      (fun j hj1 hj2 => hall j hj1 (by omega))]
    rw [List.nil_append, ← hM1]

theorem debug_loop_bound_spec_witness :
    debug_microservice sampleEnv 4 =
      DebugOutcome.maxDebugTimeReached (List.range' 1 3) :=
  (debug_loop_bound_spec sampleEnv 4).2.2 (by decide)
    (fun j h1 h2 => by
      have hb : sampleEnv.processError (sampleEnv.pushLog j) = str "boom" := rfl
      rw [hb]
      decide)

/-- Claim C4: in the debug loop, when the push at iteration `i` yields no
extracted error (after genuine errors in all earlier iterations), the loop
terminates at that very iteration: if the executor is in the hub it
succeeds, returning the path of iteration `i`'s version (`success i`,
which `debug_microservice` turns into `get_microservice_path(..., i)`);
if it is absent, the exception is raised immediately at that same
iteration (`notInHub i`) — in both cases the repair trace stops at
`i - 1`, so there is no further retry. -/
theorem debug_push_success_spec (env : DebugEnv) (MAX i : Nat)
    (h1 : 1 ≤ i) (h2 : i ≤ MAX - 1)
    (hbefore : ∀ j, 1 ≤ j → j < i → env.processError (env.pushLog j) ≠ [])
    (hi : env.processError (env.pushLog i) = []) :
    debug_microservice env MAX =
      (if env.inHub i then DebugOutcome.success i (List.range' 1 (i - 1))
       else DebugOutcome.notInHub i (List.range' 1 (i - 1))) := by
  unfold debug_microservice
  rw [debugAux_reach env (MAX - 1) 1 i [] h1 (by omega) hbefore hi]
  by_cases hh : env.inHub i <;> simp [hh]

/-- A concrete environment whose first push already builds cleanly. -/
def okEnv : DebugEnv :=
  { sampleEnv with pushLog := fun _ => [] }

theorem debug_push_success_spec_witness :
    debug_microservice okEnv 3 = DebugOutcome.success 1 [] := by
  rw [debug_push_success_spec okEnv 3 1 (by decide) (by decide)
    (fun j hj1 hj2 => absurd (Nat.lt_of_lt_of_le hj2 hj1) (Nat.lt_irrefl j))
    (by decide)]
  decide

theorem generateAux_skip (step : Nat → ApproachStatus) :
    ∀ (count r k : Nat),
    (∀ t, t < count → step (k + t) = .maxDebugExhausted) →
    generateAux step (count + r) k = generateAux step r (k + count) := by
  intro count
  induction count with
  | zero => intro r k _; simp
  | succ c ih =>
    intro r k h
    have h0 : step k = .maxDebugExhausted := by simpa using h 0 (by omega)
    have hstep : generateAux step (c + 1 + r) k =
        generateAux step (c + r) (k + 1) := by
      have hc : c + 1 + r = (c + r) + 1 := by omega
      rw [hc]
      simp [generateAux, h0]
    rw [hstep, ih r (k + 1) (fun t ht => by
      have h2 := h (t + 1) (by omega)
      have he : k + (t + 1) = k + 1 + t := by omega
      rwa [he] at h2)]
    have : k + 1 + c = k + (c + 1) := by omega
    rw [this]

/-- Claim C6: in the approach-selection loop of `generate`, an approach
that ends in the bounded-retry-exhausted signal (the only exception the
`except` clause catches) causes the next approach to be attempted (third
conjunct, one loop step); the loop stops at the first approach that
completes end to end (second conjunct); and when every approach exhausts
its retries, the run terminates normally with no exception escaping the
selector (first conjunct: the result is the ordinary
`allApproachesFailed` return, not an `uncaught` outcome). -/
theorem approach_selector_spec (envs : Nat → DebugEnv) (playOk : Nat → Bool)
    (MAX n : Nat) :
    ((∀ k, k < n → try_approach (envs k) MAX (playOk k) = .maxDebugExhausted) →
      generate_run envs playOk MAX n = .allApproachesFailed) ∧
    (∀ j, j < n → try_approach (envs j) MAX (playOk j) = .completed →
      (∀ k, k < j → try_approach (envs k) MAX (playOk k) = .maxDebugExhausted) →
      generate_run envs playOk MAX n = .succeeded j) ∧
    (∀ r k, try_approach (envs k) MAX (playOk k) = .maxDebugExhausted →
      generateAux (fun k => try_approach (envs k) MAX (playOk k)) (r + 1) k =
        generateAux (fun k => try_approach (envs k) MAX (playOk k)) r (k + 1)) := by
  refine ⟨?_, ?_, ?_⟩
  · intro h
    unfold generate_run
    have hs := generateAux_skip
      (fun k => try_approach (envs k) MAX (playOk k)) n 0 0
      (fun t ht => by simpa using h t ht)
    simpa using hs
  · intro j hj hcomp h
    unfold generate_run
    have hs := generateAux_skip
      (fun k => try_approach (envs k) MAX (playOk k)) j (n - j) 0
      (fun t ht => by simpa using h t ht)
    have hn : j + (n - j) = n := by omega
    rw [← hn, hs]
    have hnj : n - j = (n - j - 1) + 1 := by omega
    rw [hnj]
    simp [generateAux, hcomp]
  · intro r k h
    simp [generateAux, h]

theorem approach_selector_spec_witness :
    generate_run (fun _ => sampleEnv) (fun _ => true) 4 2 =
      RunResult.allApproachesFailed :=
  (approach_selector_spec (fun _ => sampleEnv) (fun _ => true) 4 2).1
    (fun k hk => by
      have hb : try_approach ((fun _ => sampleEnv) k) 4 ((fun _ => true) k) =
          try_approach sampleEnv 4 true := rfl
      rw [hb]
      decide)

/-- Claim C5: for every error text containing one of the fixed runtime
exception names, `is_dependency_issue` returns the code-issue
classification (`false`) with an empty conversation transcript — no model
call (first conjunct); for every other error text, exactly one classifier
query is sent and the result is the dependency classification exactly
when the affirmative marker `yes` occurs in the lowercased reply (second
conjunct). -/
theorem dependency_classifier_spec (oracle : Str → Str)
    (error docker_file : Str) :
    ((∃ m, m ∈ heuristicMarkers ∧ containsPat m error = true) →
      is_dependency_issue oracle error docker_file = (false, [])) ∧
    ((∀ m, m ∈ heuristicMarkers → containsPat m error = false) →
      is_dependency_issue oracle error docker_file =
        (containsPat (str "yes")
          ((oracle (template_is_dependency_issue error docker_file)).map
            Char.toLower),
         [template_is_dependency_issue error docker_file])) := by
  constructor
  · rintro ⟨m, hm, hc⟩
    have hany : heuristicMarkers.any (fun m => containsPat m error) = true := by
      rw [List.any_eq_true]
      exact ⟨m, hm, hc⟩
    simp [is_dependency_issue, hany]
  · intro h
    have hany : heuristicMarkers.any (fun m => containsPat m error) = false := by
      rw [Bool.eq_false_iff]
      intro hc
      rw [List.any_eq_true] at hc
      obtain ⟨m, hm, hcc⟩ := hc
      rw [h m hm] at hcc
      exact Bool.false_ne_true hcc
    simp [is_dependency_issue, hany]

theorem dependency_classifier_spec_witness :
    is_dependency_issue (fun _ => str "Yes, it is.")
      (str "AttributeError: 'NoneType' object has no attribute 'x'")
      (str "FROM python:3.8") = (false, []) ∧
    is_dependency_issue (fun _ => str "Yes, it is.")
      (str "pip could not resolve tensorflow")
      (str "FROM python:3.8") =
      (true, [template_is_dependency_issue
        (str "pip could not resolve tensorflow") (str "FROM python:3.8")]) := by
  constructor
  · exact (dependency_classifier_spec _ _ _).1
      ⟨str "AttributeError", by decide, by decide⟩
  · rw [(dependency_classifier_spec (fun _ => str "Yes, it is.")
      (str "pip could not resolve tensorflow") (str "FROM python:3.8")).2
      (by decide)]
    decide

/-- Claim C8: in `generate_and_persist_file`, when the first extraction is
empty exactly one corrective follow-up message with the literal text
`You must add the content for {file_name}.` is sent and extraction is
attempted on the second reply (first conjunct); when the second extraction
is also empty the empty content is what the caller receives, with no
further retries and no exception — the function is total and simply
returns it (second conjunct); and when the first extraction succeeds no
follow-up is sent (third conjunct). -/
theorem generate_file_retry_spec (oracle : Nat → Str) (prompt : Str)
    (destination_folder : Option Str) (file_name : Str) :
    (extract_content_from_result (oracle 0) file_name true = [] →
      (generate_and_persist_file oracle prompt destination_folder
        file_name).sent =
        [prompt, str "You must add the content for " ++ file_name ++ str "."] ∧
      (generate_and_persist_file oracle prompt destination_folder
        file_name).content =
        extract_content_from_result (oracle 1) file_name true) ∧
    (extract_content_from_result (oracle 0) file_name true = [] →
      extract_content_from_result (oracle 1) file_name true = [] →
      (generate_and_persist_file oracle prompt destination_folder
        file_name).content = []) ∧
    (extract_content_from_result (oracle 0) file_name true ≠ [] →
      (generate_and_persist_file oracle prompt destination_folder
        file_name).sent = [prompt] ∧
      (generate_and_persist_file oracle prompt destination_folder
        file_name).content =
        extract_content_from_result (oracle 0) file_name true) := by
  refine ⟨?_, ?_, ?_⟩
  · intro h
    constructor <;> simp [generate_and_persist_file, h]
  · intro h0 h1
    simp [generate_and_persist_file, h0, h1]
  · intro h
    constructor <;> simp [generate_and_persist_file, h]

theorem generate_file_retry_spec_witness :
    (generate_and_persist_file (fun _ => str "I cannot help with that.")
      (str "please write microservice.py") (some (str "v1"))
      (str "microservice.py")).sent =
      [str "please write microservice.py",
       str "You must add the content for " ++ str "microservice.py" ++ str "."] :=
  ((generate_file_retry_spec (fun _ => str "I cannot help with that.")
    (str "please write microservice.py") (some (str "v1"))
    (str "microservice.py")).1 (by decide)).1

/-- Claim C10: `generate_and_persist_file` with a destination folder
persists a file named `file_name` into that folder even when both
extraction attempts return empty content: an empty artifact file is
written (and the empty string returned) rather than the file being
skipped or an error raised. -/
theorem persist_empty_file_spec (oracle : Nat → Str) (prompt : Str)
    (d file_name : Str)
    (h0 : extract_content_from_result (oracle 0) file_name true = [])
    (h1 : extract_content_from_result (oracle 1) file_name true = []) :
    (generate_and_persist_file oracle prompt (some d) file_name).written =
      [(d, file_name, [])] ∧
    (generate_and_persist_file oracle prompt (some d) file_name).content
      = [] := by
  constructor <;> simp [generate_and_persist_file, h0, h1]

theorem persist_empty_file_spec_witness :
    (generate_and_persist_file (fun _ => str "I cannot help with that.")
      (str "please write requirements.txt") (str "v1")
      (str "requirements.txt")).written =
      [(str "v1", str "requirements.txt", [])] :=
  (persist_empty_file_spec (fun _ => str "I cannot help with that.")
    (str "please write requirements.txt") (str "v1") (str "requirements.txt")
    (by decide) (by decide)).1

/-- Claim C9: in each refinement iteration of `refine_task`, a response
containing a finalized-spec block (`task-final.txt`) makes the loop store
that block and stop (first conjunct: the loop returns it); a response with
neither a finalized block nor a question block (`prompt.txt`) is surfaced
whole to the human as the next question — with the `\n: ` prompt suffix
the source appends — and the loop continues with the human's reply rather
than failing (second conjunct). -/
theorem refine_task_fallback_spec (respOf : Nat → Str → Str)
    (input : Str → Str) (fuel n : Nat) (d : Str) :
    (extract_content_from_result (respOf n d) (str "task-final.txt") false ≠ [] →
      refine_task_loop respOf input (fuel + 1) n d =
        some (extract_content_from_result (respOf n d)
          (str "task-final.txt") false)) ∧
    (extract_content_from_result (respOf n d) (str "task-final.txt") false = [] →
      extract_content_from_result (respOf n d) (str "prompt.txt") false = [] →
      refine_task_loop respOf input (fuel + 1) n d =
        refine_task_loop respOf input fuel (n + 1)
          (input (respOf n d ++ str "\n: "))) := by
  constructor
  · intro h
    simp [refine_task_loop, h]
  · intro h1 h2
    simp [refine_task_loop, h1, h2]

theorem refine_task_fallback_spec_witness :
    refine_task_loop
      (fun _ _ => str "**task-final.txt**\n```\nBuild an API.\n```")
      (fun q => q) 3 0 (str "first draft") =
      some (extract_content_from_result
        (str "**task-final.txt**\n```\nBuild an API.\n```")
        (str "task-final.txt") false) :=
  (refine_task_fallback_spec
    (fun _ _ => str "**task-final.txt**\n```\nBuild an API.\n```")
    (fun q => q) 2 0 (str "first draft")).1 (by decide)
